import Mathlib

/-!
Verification of the nlpromql repository's core logic against its
natural-language specification.

The Go source is shallowly embedded in Lean:

* Go maps (`map[K]V`) become association lists `List (K × V)` whose list
  order is the map's (unspecified) iteration order; `map[string]struct{}`
  sets become `List String` with insert-if-absent semantics.
* `float64` match scores become `Rat` (the code only adds the literals
  `1.0`, `0.5`, `0.2`).
* Fallible code returns `Except`/`Option`; the file system is a per-slot
  `Option` state.
* External collaborators (the LLM synonym provider, Prometheus) are
  parameters of the embedded functions.
-/

namespace Nlpromql

/-! ## Go map / set primitives

`goLookup` is `v, ok := m[k]`; `mapSetVal` is `m[k] = v` (update in place
if the key is present, append otherwise); `setInsert` is
`s[x] = struct{}{}` on a `map[string]struct{}` viewed as a set. -/
/-- `strings.ToLower`, modelled characterwise (the repository's names
and tokens are ASCII). -/
def toLowerStr (s : String) : String :=
  String.mk (s.data.map Char.toLower)

/-- `v, ok := m[k]` on a Go map embedded as an association list. -/
def goLookup {α : Type} (m : List (String × α)) (k : String) : Option α :=
  match m with
  | [] => none
  | (k', v) :: rest => if k' = k then some v else goLookup rest k

/-- `m[k] = v` on a Go map embedded as an association list: replaces the
value at `k` if present (keeping its position), appends otherwise. -/
def mapSetVal {α : Type} (m : List (String × α)) (k : String) (v : α) :
    List (String × α) :=
  match m with
  | [] => [(k, v)]
  | (k', v') :: rest =>
      if k' = k then (k, v) :: rest else (k', v') :: mapSetVal rest k v

/-- `s[x] = struct{}{}` on a `map[string]struct{}` used as a set. -/
def setInsert (s : List String) (x : String) : List String :=
  if x ∈ s then s else s ++ [x]

/-! ## C1: batch formation in `UpdateMetricMap` / `UpdateLabelMap`
(`info_structure/builder.go`).

Both functions accumulate new names one at a time into `currentBatch`,
flush the batch as soon as it reaches `metricBatchSize`/`labelBatchSize`
(both `= 10`), and append the final non-empty remainder.  `mkBatchesAux`
mirrors that loop; the input list is the enumeration order of the new
names (for metrics: the iteration order of the Go map
`metricsToQueryForSynonyms`; for labels: the order of `newLabelNames`).
The source contains no sorting step. -/
/-- `const metricBatchSize = 10` in `UpdateMetricMap`. -/
def metricBatchSize : Nat := 10

/-- `const labelBatchSize = 10` in `UpdateLabelMap`. -/
def labelBatchSize : Nat := 10

/-- The batching loop shared by `UpdateMetricMap` and `UpdateLabelMap`:
`cur` is `currentBatch`, the second argument the names still to process;
a batch is flushed once its size reaches `B`, and the trailing non-empty
remainder is appended at the end. -/
def mkBatchesAux {α : Type} (B : Nat) : List α → List α → List (List α)
  | cur, [] => if cur.isEmpty then [] else [cur]
  | cur, x :: xs =>
      let cur2 := cur ++ [x]
      if B ≤ cur2.length then cur2 :: mkBatchesAux B [] xs
      else mkBatchesAux B cur2 xs

/-- Batch formation as performed by the builder, starting from an empty
`currentBatch`. -/
def mkBatches {α : Type} (B : Nat) (xs : List α) : List (List α) :=
  mkBatchesAux B [] xs

/-- The new-name diff performed at the top of `UpdateMetricMap` and
`UpdateLabelMap`: keep the live names that are not yet in `AllNames`
(the inner loop over `AllNames` sets `found` exactly when some existing
name equals the candidate). -/
def newNamesOf (known : List String) (allNames : List String) : List String :=
  allNames.filter (fun m => !(known.contains m))

/-- The label batches formed by `UpdateLabelMap` for a given known-name
set and live label list: diff, then chunk in arrival order. -/
def labelBatchesFor (known : List String) (allLabelNames : List String) :
    List (List String) :=
  mkBatches labelBatchSize (newNamesOf known allLabelNames)

/-! ## C2: idempotent rebuild (`UpdateMetricMap`, builder.go)

`MetricMap` embeds the Go struct of the same name: `Map` is
`map[string]map[string]struct{}` (token → name set) and `AllNames` is
`map[string]struct{}` (name set).  `mergeSynonyms` embeds the population
loop (lines 409–417): for each `(metric, synonyms)` pair of the
provider response, every token in `strings.ToLower(metric) :: synonyms`
gets `metric` added to its token set, and `metric` is added to
`AllNames`. -/
structure MetricMap where
  map : List (String × List String)
  allNames : List String
deriving DecidableEq

/-- `Map[token][name] = struct{}{}` with make-if-absent. -/
def mapAddName (m : List (String × List String)) (token name : String) :
    List (String × List String) :=
  mapSetVal m token (setInsert ((goLookup m token).getD []) name)

/-- The inner population loop for one `(metric, synonyms)` response
entry. -/
def mergeEntry (mm : MetricMap) (p : String × List String) : MetricMap :=
  (toLowerStr p.1 :: p.2).foldl
    (fun acc tok =>
      { map := mapAddName acc.map tok p.1,
        allNames := setInsert acc.allNames p.1 }) mm

/-- The full population loop over the consolidated provider response
(its list order is the Go map's iteration order). -/
def mergeSynonyms (mm : MetricMap) (resp : List (String × List String)) :
    MetricMap :=
  resp.foldl mergeEntry mm

/-- `UpdateMetricMap`, abstracted over the provider: computes the
new-name diff, returns unchanged with zero dispatched batches when the
diff is empty, and otherwise merges the provider's consolidated response
`resp`, dispatching one batch per chunk of 10 new names.  The second
component counts batches handed to the synonym provider. -/
def runUpdateMetricMap (mm : MetricMap) (allMetricNames : List String)
    (resp : List (String × List String)) : MetricMap × Nat :=
  let newNames := newNamesOf mm.allNames allMetricNames
  if newNames.isEmpty then (mm, 0)
  else (mergeSynonyms mm resp, (mkBatches metricBatchSize newNames).length)

/-! ## C3: persistence in `BuildInformationStructure` / `SaveInfoStructure`

`BuildInformationStructure` runs its stages sequentially, returning at
the first failure, and calls `SaveInfoStructure` last.
`SaveInfoStructure` writes the five documents one `saveMapToFile` call
at a time, returning at the first failed write — the writes already made
stay on disk.  The embedding keeps one `Option String` slot per
document (`none` = file absent) and abstracts each external/IO outcome
as a `Bool`. -/
/-- The five persisted JSON documents (serialized contents). -/
structure InfoDocs where
  metricMapDoc : String
  labelMapDoc : String
  metricLabelMapDoc : String
  labelValueMapDoc : String
  nlpToMetricMapDoc : String
deriving DecidableEq

/-- On-disk state: one slot per document file, `none` when absent. -/
structure PersistedDocs where
  metricMapDoc : Option String
  labelMapDoc : Option String
  metricLabelMapDoc : Option String
  labelValueMapDoc : Option String
  nlpToMetricMapDoc : Option String
deriving DecidableEq

/-- Success/failure of each of the five `saveMapToFile` calls. -/
structure SaveOutcomes where
  metricMapOk : Bool
  labelMapOk : Bool
  metricLabelMapOk : Bool
  labelValueMapOk : Bool
  nlpToMetricMapOk : Bool
deriving DecidableEq

/-- Success/failure of each build stage before persistence (load, the
two Prometheus name/metadata fetches, the two synonym-map updates, the
catalog update). -/
structure StageOutcomes where
  loadOk : Bool
  fetchMetricsOk : Bool
  fetchDescriptionsOk : Bool
  updateMetricMapOk : Bool
  fetchLabelsOk : Bool
  updateLabelMapOk : Bool
  updateCatalogOk : Bool
deriving DecidableEq

/-- `SaveInfoStructure`: writes the five documents in order, stopping at
the first failed write; `true` means all five writes succeeded. -/
def saveInfoStructure (docs : InfoDocs) (ok : SaveOutcomes)
    (st : PersistedDocs) : PersistedDocs × Bool :=
  if !ok.metricMapOk then (st, false)
  else
    let st1 := { st with metricMapDoc := some docs.metricMapDoc }
    if !ok.labelMapOk then (st1, false)
    else
      let st2 := { st1 with labelMapDoc := some docs.labelMapDoc }
      if !ok.metricLabelMapOk then (st2, false)
      else
        let st3 := { st2 with metricLabelMapDoc := some docs.metricLabelMapDoc }
        if !ok.labelValueMapOk then (st3, false)
        else
          let st4 := { st3 with labelValueMapDoc := some docs.labelValueMapDoc }
          if !ok.nlpToMetricMapOk then (st4, false)
          else ({ st4 with nlpToMetricMapDoc := some docs.nlpToMetricMapDoc }, true)

/-- `BuildInformationStructure`'s control flow: each stage in order,
returning the untouched store at the first failure; persistence is the
final stage. -/
def buildInformationStructure (stages : StageOutcomes) (docs : InfoDocs)
    (saveOk : SaveOutcomes) (st : PersistedDocs) : PersistedDocs × Bool :=
  if !stages.loadOk then (st, false)
  else if !stages.fetchMetricsOk then (st, false)
  else if !stages.fetchDescriptionsOk then (st, false)
  else if !stages.updateMetricMapOk then (st, false)
  else if !stages.fetchLabelsOk then (st, false)
  else if !stages.updateLabelMapOk then (st, false)
  else if !stages.updateCatalogOk then (st, false)
  else saveInfoStructure docs saveOk st

/-! ## C4: BatchDispatcher (`GetMetricSynonyms` / `GetLabelSynonyms`,
langchain/client.go)

One goroutine is launched per batch; `wg.Wait()` drains every worker
before the results channel is read, so `results` below is the list of
every worker's outcome in channel order.  The consolidation loop records
the first error, keeps merging the successful responses, and finally
returns `(nil, firstError)` when any batch failed, `(merged, nil)`
otherwise. -/
/-- A provider response: name → accumulated synonym list. -/
abbrev SynMap := List (String × List String)

/-- `consolidatedSynonyms[key] = append(consolidatedSynonyms[key] or [], value...)`
for every pair of one worker's response. -/
def mergeResponse (acc : SynMap) (r : SynMap) : SynMap :=
  r.foldl (fun a p => mapSetVal a p.1 ((goLookup a p.1).getD [] ++ p.2)) acc

/-- The drain loop over the results channel: first error plus merged
successes (successes are merged even after an error was recorded). -/
def consolidate (results : List (Except String SynMap)) :
    Option String × SynMap :=
  results.foldl
    (fun acc res =>
      match res with
      | .error e => (if acc.1 = none then some e else acc.1, acc.2)
      | .ok syns => (acc.1, mergeResponse acc.2 syns))
    (none, [])

/-- `GetMetricSynonyms` / `GetLabelSynonyms` after the drain: on any
batch error the consolidated map is discarded (`return nil, firstError`). -/
def dispatchSynonyms (results : List (Except String SynMap)) :
    Option SynMap × Option String :=
  match (consolidate results).1 with
  | some e => (none, some e)
  | none => (some (consolidate results).2, none)

/-- Values accumulated for a name (empty when absent). -/
def valuesAt (m : SynMap) (k : String) : List String :=
  (goLookup m k).getD []

/-- The first error in channel-drain order. -/
def firstErrorOf (results : List (Except String SynMap)) : Option String :=
  match results with
  | [] => none
  | .error e :: _ => some e
  | .ok _ :: rest => firstErrorOf rest

/-! ## The relevance resolver (`ProcessUserQuery`, query_processing)

`PossibleMatches` embeds the LLM payload `map[string]interface{}` after
the code's type assertions: a field is `none` when
`possibleMatches[...].([]interface{})` fails (wrong shape), and an
element is `none` when the element's `.(string)` assertion fails.
`MetricLabelMap`/`LabelValueMap` embed the catalog types of
info_structure/types.go; value sets are lists in iteration order. -/
/-- `LabelInfo`: the value set of one label, in iteration order. -/
structure LabelInfo where
  values : List String
deriving DecidableEq

/-- `MetricInfo`: labels of one metric. -/
structure MetricInfo where
  labels : List (String × LabelInfo)
deriving DecidableEq

abbrev MetricLabelMap := List (String × MetricInfo)

abbrev LabelValueMap := List (String × LabelInfo)

/-- `llm.LabelContextDetail`. -/
structure LabelContextDetail where
  matchScore : Rat
  values : List String
deriving DecidableEq

abbrev LabelCtxMap := List (String × LabelContextDetail)

abbrev RelevantMetricsMap := List (String × LabelCtxMap)

/-- The LLM extraction payload after the resolver's type assertions. -/
structure PossibleMatches where
  metricNames : Option (List (Option String))
  labelNames : Option (List (Option String))
  labelValues : Option (List (Option String))
deriving DecidableEq

/-- The `getSampleValues` helper of `ProcessUserQuery`: walks the value
set in iteration order and stops after 5 values — the first five
elements of the iteration order. -/
def getSampleValues (valueSet : List String) : List String :=
  valueSet.take 5

/-- One label-token hit for a label valid in the catalog (lines 82–93 of
the resolver): first mention creates `matchScore = 1` with sampled
values; a repeat mention adds `0.5` and keeps the values. -/
def labelResolveStep (catalogValues : List String) (ctxs : LabelCtxMap)
    (lbl : String) : LabelCtxMap :=
  match goLookup ctxs lbl with
  | none => mapSetVal ctxs lbl ⟨1, getSampleValues catalogValues⟩
  | some c => mapSetVal ctxs lbl ⟨c.matchScore + 0.5, c.values⟩

/-- One value-token hit against a label whose catalog values contain the
token (lines 113–126): first mention creates `matchScore = 1` with just
that value; otherwise the value is appended when absent and the score
gains `0.2`. -/
def valueResolveStep (ctxs : LabelCtxMap) (lbl : String) (tok : String) :
    LabelCtxMap :=
  match goLookup ctxs lbl with
  | none => mapSetVal ctxs lbl ⟨1, [tok]⟩
  | some c =>
      let vals := if tok ∈ c.values then c.values else c.values ++ [tok]
      mapSetVal ctxs lbl ⟨c.matchScore + 0.2, vals⟩

/-- The metric-scoped label-token loop (lines 69–99): non-string tokens
are skipped, tokens are looked up in the label synonym map verbatim, and
each resolved label name is scored iff the catalog lists it for the
metric. -/
def processMetricLabelTokens (labelMapM : List (String × List String))
    (mlm : MetricLabelMap) (metricName : String)
    (labelTokens : List (Option String)) (ctxs : LabelCtxMap) : LabelCtxMap :=
  labelTokens.foldl
    (fun cs lt =>
      match lt with
      | none => cs
      | some tokenStr =>
          match goLookup labelMapM tokenStr with
          | none => cs
          | some actualLabelNames =>
              actualLabelNames.foldl
                (fun cs2 actualLabelName =>
                  match goLookup mlm metricName with
                  | none => cs2
                  | some minfo =>
                      match goLookup minfo.labels actualLabelName with
                      | none => cs2
                      | some ldetail =>
                          labelResolveStep ldetail.values cs2 actualLabelName)
                cs)
    ctxs

/-- The metric-scoped value-token loop (lines 101–131): each value token
is tested against every label the catalog lists for the metric. -/
def processMetricValueTokens (mlm : MetricLabelMap) (metricName : String)
    (lvTokens : List (Option String)) (ctxs : LabelCtxMap) : LabelCtxMap :=
  lvTokens.foldl
    (fun cs lv =>
      match lv with
      | none => cs
      | some tok =>
          match goLookup mlm metricName with
          | none => cs
          | some minfo =>
              minfo.labels.foldl
                (fun cs2 p =>
                  if tok ∈ p.2.values then valueResolveStep cs2 p.1 tok else cs2)
                cs)
    ctxs

/-- The metric-token loop (lines 54–135): metric tokens are looked up in
the metric synonym map verbatim (no case normalization); each resolved
metric gets an entry, then its labels and values are scored. -/
def processMetricTokens (metricMapM labelMapM : List (String × List String))
    (mlm : MetricLabelMap) (pm : PossibleMatches) : RelevantMetricsMap :=
  match pm.metricNames with
  | none => []
  | some mtoks =>
      mtoks.foldl
        (fun rm mt =>
          match mt with
          | none => rm
          | some metricTokenStr =>
              match goLookup metricMapM metricTokenStr with
              | none => rm
              | some actualMetricNames =>
                  actualMetricNames.foldl
                    (fun rm2 metricName =>
                      let rm3 := if (goLookup rm2 metricName).isSome then rm2
                                 else mapSetVal rm2 metricName []
                      let ctxs0 := (goLookup rm3 metricName).getD []
                      let ctxs1 := match pm.labelNames with
                                   | none => ctxs0
                                   | some lts =>
                                       processMetricLabelTokens labelMapM mlm
                                         metricName lts ctxs0
                      let ctxs2 := match pm.labelValues with
                                   | none => ctxs1
                                   | some lvs =>
                                       processMetricValueTokens mlm metricName
                                         lvs ctxs1
                      mapSetVal rm3 metricName ctxs2)
                    rm)
        []

/-- The standalone label-token loop (lines 139–165): samples values from
the label-value catalog (empty when the label is absent there). -/
def processLabelTokens (labelMapM : List (String × List String))
    (lvm : LabelValueMap) (labelTokens : List (Option String))
    (rl : LabelCtxMap) : LabelCtxMap :=
  labelTokens.foldl
    (fun rl2 lt =>
      match lt with
      | none => rl2
      | some tokenStr =>
          match goLookup labelMapM tokenStr with
          | none => rl2
          | some actualLabelNames =>
              actualLabelNames.foldl
                (fun rl3 actualLabelName =>
                  labelResolveStep
                    ((goLookup lvm actualLabelName).map LabelInfo.values |>.getD [])
                    rl3 actualLabelName)
                rl2)
    rl

/-- The standalone value-token loop (lines 167–191): each value token is
tested against every label of the label-value catalog. -/
def processValueTokens (lvm : LabelValueMap) (lvTokens : List (Option String))
    (rl : LabelCtxMap) : LabelCtxMap :=
  lvTokens.foldl
    (fun rl2 lv =>
      match lv with
      | none => rl2
      | some tok =>
          lvm.foldl
            (fun rl3 p =>
              if tok ∈ p.2.values then valueResolveStep rl3 p.1 tok else rl3)
            rl2)
    rl

/-! History phase (lines 196–215).  Keys and values of the persisted
`nlpToMetricMap` are JSON strings; an entry's components are embedded as
their `json.Unmarshal` outcomes: `none` when the payload does not parse
(malformed), `some parsed` otherwise. -/
abbrev HistKey := Option (List String)

abbrev HistVal := Option (List (String × String))

/-- `containsAny`: whether the candidate slice holds the given string
(non-string elements never match). -/
def containsAny (slice : List (Option String)) (s : String) : Bool :=
  slice.any (fun item =>
    match item with
    | some it => it = s
    | none => false)

/-- The history loop: the first malformed key aborts; a well-formed key
of shape `[metricToken, labelToken]` matching both candidate lists
forces its value to be decoded (the first malformed matching value
aborts) and merged. -/
def historyLoop (pmn pln : List (Option String))
    (acc : List (String × String)) :
    List (HistKey × HistVal) → Except String (List (String × String))
  | [] => .ok acc
  | (k, v) :: rest =>
      match k with
      | none => .error "error unmarshaling nlpToMetricMap key"
      | some keyParts =>
          if keyParts.length = 2 ∧
              containsAny pmn (keyParts.getD 0 "") = true ∧
              containsAny pln (keyParts.getD 1 "") = true then
            match v with
            | none => .error "error unmarshaling nlpToMetricMap value"
            | some valueMap =>
                historyLoop pmn pln
                  (valueMap.foldl (fun a p => mapSetVal a p.1 p.2) acc) rest
          else historyLoop pmn pln acc rest

/-- `ProcessUserQuery` after the LLM call: builds the three relevance
structures; a history decoding failure is fatal for the whole call. -/
def processUserQuery (metricMapM labelMapM : List (String × List String))
    (mlm : MetricLabelMap) (lvm : LabelValueMap)
    (hist : List (HistKey × HistVal)) (pm : PossibleMatches) :
    Except String (RelevantMetricsMap × LabelCtxMap × List (String × String)) :=
  let rm := processMetricTokens metricMapM labelMapM mlm pm
  let rl0 := match pm.labelNames with
             | none => []
             | some lts => processLabelTokens labelMapM lvm lts []
  let rl := match pm.labelValues with
            | none => rl0
            | some lvs => processValueTokens lvm lvs rl0
  match pm.metricNames, pm.labelNames with
  | some pmn, some pln =>
      match historyLoop pmn pln [] hist with
      | .error e => .error e
      | .ok h => .ok (rm, rl, h)
  | _, _ => .ok (rm, rl, [])

/-- Whether one history entry triggers the resolution-phase error: an
undecodable key, or an undecodable value under a length-2 key matching
both candidate lists. -/
def histEntryBad (pmn pln : List (Option String)) (e : HistKey × HistVal) :
    Bool :=
  match e.1 with
  | none => true
  | some keyParts =>
      decide (keyParts.length = 2) && containsAny pmn (keyParts.getD 0 "") &&
        containsAny pln (keyParts.getD 1 "") && e.2.isNone

/-- The exact condition under which the history phase fails. -/
def historyFailureWitness (pmn pln : List (Option String))
    (hist : List (HistKey × HistVal)) : Bool :=
  hist.any (histEntryBad pmn pln)

/-! ## C9: the build-status lock (`builder.go` 227–241, 332–342)

`BuildInformationStructure` takes `buildStatusLock` (a `sync.RWMutex`)
only around each status update: it locks, writes the running status,
unlocks, runs the stages with no lock held, then locks again in the
deferred cleanup.  `GetBuildStatus`/`IsBuilding` take the read lock for
the duration of the read.  The model makes each locked status update one
atomic step (enabled only when no reader holds the lock — RW write
acquisition), and splits a reader's RLock/RUnlock so reads can overlap.
Nothing in the code checks `IsRunning` before starting a build. -/
inductive BuilderPc
  | start
  | body
  | finished
deriving DecidableEq

inductive ReaderPc
  | idle
  | reading
  | afterRead
deriving DecidableEq

structure LockModelState where
  b1 : BuilderPc
  b2 : BuilderPc
  r1 : ReaderPc
  r2 : ReaderPc
  readers : Nat
deriving DecidableEq

/-- One interleaving step of two concurrent `BuildInformationStructure`
calls and two concurrent `GetBuildStatus` calls. -/
inductive LockStep : LockModelState → LockModelState → Prop
  | b1Start (s : LockModelState) (h : s.b1 = .start) (hr : s.readers = 0) :
      LockStep s { s with b1 := .body }
  | b2Start (s : LockModelState) (h : s.b2 = .start) (hr : s.readers = 0) :
      LockStep s { s with b2 := .body }
  | b1End (s : LockModelState) (h : s.b1 = .body) (hr : s.readers = 0) :
      LockStep s { s with b1 := .finished }
  | b2End (s : LockModelState) (h : s.b2 = .body) (hr : s.readers = 0) :
      LockStep s { s with b2 := .finished }
  | r1Acquire (s : LockModelState) (h : s.r1 = .idle) :
      LockStep s { s with r1 := .reading, readers := s.readers + 1 }
  | r1Release (s : LockModelState) (h : s.r1 = .reading) :
      LockStep s { s with r1 := .afterRead, readers := s.readers - 1 }
  | r2Acquire (s : LockModelState) (h : s.r2 = .idle) :
      LockStep s { s with r2 := .reading, readers := s.readers + 1 }
  | r2Release (s : LockModelState) (h : s.r2 = .reading) :
      LockStep s { s with r2 := .afterRead, readers := s.readers - 1 }

/-- Initial state: no build started, no observer reading. -/
def lockInit : LockModelState :=
  ⟨.start, .start, .idle, .idle, 0⟩

/-- States reachable by interleaving the four threads. -/
def lockReachable (s : LockModelState) : Prop :=
  Relation.ReflTransGen LockStep lockInit s

/-! ## C10: loading with missing files (`loadMapFromFile`,
`LoadInfoStructure`, info_structure/loader.go)

A file slot is `none` when the file does not exist (`os.Open` fails with
`IsNotExist`, which `loadMapFromFile` swallows, leaving the out-variable
at its zero value), `some none` when the file exists but its JSON does
not decode (an error), and `some (some d)` when it decodes to `d`. -/
/-- The serialized synonym-index document (`MetricJsonMap` /
`LabelJsonMap`; both Go structs have this shape). -/
structure MetricJsonMap where
  map : List (String × List String)
  allNames : List String
deriving DecidableEq

/-- `loadMapFromFile`: a missing file is not an error and leaves the
destination at its current (zero) value. -/
def loadMapFromFile {α : Type} (fileContents : Option (Option α))
    (current : α) : Except String α :=
  match fileContents with
  | none => .ok current
  | some none => .error "error decoding JSON"
  | some (some a) => .ok a

/-- `convertJSONToMetricMap`. -/
def convertJSONToMetricMap (data : MetricJsonMap) : MetricMap :=
  { map := data.map.foldl
      (fun acc p => mapSetVal acc p.1 (p.2.foldl setInsert [])) [],
    allNames := data.allNames.foldl setInsert [] }

/-- `convertJSONToLabelMap` (same shape as the metric one in the
source). -/
def convertJSONToLabelMap (data : MetricJsonMap) : MetricMap :=
  { map := data.map.foldl
      (fun acc p => mapSetVal acc p.1 (p.2.foldl setInsert [])) [],
    allNames := data.allNames.foldl setInsert [] }

/-- `convertJSONToMetricLabelMap`. -/
def convertJSONToMetricLabelMap
    (data : List (String × List (String × List String))) : MetricLabelMap :=
  data.foldl
    (fun result p =>
      mapSetVal result p.1
        (MetricInfo.mk (p.2.foldl
          (fun labels q =>
            let li := (goLookup labels q.1).getD (LabelInfo.mk [])
            mapSetVal labels q.1 (LabelInfo.mk (q.2.foldl setInsert li.values)))
          [])))
    []

/-- `convertJSONToLabelValueMap`. -/
def convertJSONToLabelValueMap (data : List (String × List String)) :
    LabelValueMap :=
  data.foldl
    (fun result p =>
      let li := (goLookup result p.1).getD (LabelInfo.mk [])
      mapSetVal result p.1 (LabelInfo.mk (p.2.foldl setInsert li.values)))
    []

/-- The five document files as found on disk. -/
structure InfoFiles where
  metricMapFile : Option (Option MetricJsonMap)
  labelMapFile : Option (Option MetricJsonMap)
  metricLabelMapFile : Option (Option (List (String × List (String × List String))))
  labelValueMapFile : Option (Option (List (String × List String)))
  nlpToMetricMapFile : Option (Option (List (String × String)))

/-- `LoadInfoStructure`: the five sequential loads with their
conversions. -/
def loadInfoStructure (fs : InfoFiles) :
    Except String (MetricMap × MetricMap × MetricLabelMap × LabelValueMap ×
      List (String × String)) :=
  match loadMapFromFile fs.metricMapFile (MetricJsonMap.mk [] []) with
  | .error e => .error e
  | .ok mmJ =>
    match loadMapFromFile fs.labelMapFile (MetricJsonMap.mk [] []) with
    | .error e => .error e
    | .ok lmJ =>
      match loadMapFromFile fs.metricLabelMapFile [] with
      | .error e => .error e
      | .ok mlJ =>
        match loadMapFromFile fs.labelValueMapFile [] with
        | .error e => .error e
        | .ok lvJ =>
          match loadMapFromFile fs.nlpToMetricMapFile [] with
          | .error e => .error e
          | .ok nm =>
              .ok (convertJSONToMetricMap mmJ, convertJSONToLabelMap lmJ,
                convertJSONToMetricLabelMap mlJ, convertJSONToLabelValueMap lvJ,
                nm)

/-! ## Theorems -/

theorem goLookup_mapSetVal_self {α : Type} (m : List (String × α))
    (k : String) (v : α) : goLookup (mapSetVal m k v) k = some v := by
  induction m with
  | nil => simp [mapSetVal, goLookup]
  | cons p rest ih =>
      obtain ⟨k', v'⟩ := p
      by_cases h : k' = k
      · simp [mapSetVal, goLookup, h]
      · simp [mapSetVal, goLookup, h, ih]

theorem goLookup_mapSetVal_other {α : Type} (m : List (String × α))
    (k k' : String) (v : α) (h : k ≠ k') :
    goLookup (mapSetVal m k v) k' = goLookup m k' := by
  induction m with
  | nil => simp [mapSetVal, goLookup, h]
  | cons p rest ih =>
      obtain ⟨k0, v0⟩ := p
      by_cases h0 : k0 = k
      · subst h0
        simp [mapSetVal, goLookup, h]
      · simp [mapSetVal, goLookup, h0, ih]

theorem mem_setInsert_self (s : List String) (x : String) :
    x ∈ setInsert s x := by
  unfold setInsert
  by_cases h : x ∈ s <;> simp [h]

theorem mem_setInsert_of_mem (s : List String) (x y : String)
    (h : y ∈ s) : y ∈ setInsert s x := by
  unfold setInsert
  by_cases hx : x ∈ s <;> simp [hx, h]

theorem setInsert_nodup (s : List String) (x : String) (h : s.Nodup) :
    (setInsert s x).Nodup := by
  unfold setInsert
  by_cases hx : x ∈ s
  · simpa [hx]
  · simp only [hx, if_false]
    simpa [List.nodup_append] using ⟨h, hx⟩

theorem mkBatchesAux_flatten {α : Type} :
    ∀ (xs cur : List α), cur.length < 10 →
      (mkBatchesAux 10 cur xs).flatten = cur ++ xs := by
  intro xs
  induction xs with
  | nil =>
      intro cur _
      by_cases h : cur.isEmpty
      · simp [mkBatchesAux, h, List.isEmpty_iff.mp h]
      · simp [mkBatchesAux, h]
  | cons x xs ih =>
      intro cur hcur
      by_cases h : 10 ≤ (cur ++ [x]).length
      · simp only [mkBatchesAux, h, if_true, List.flatten_cons]
        rw [ih [] (by simp)]
        simp
      · simp only [mkBatchesAux, h, if_false]
        have hlen : (cur ++ [x]).length < 10 := Nat.lt_of_not_le h
        simpa using ih (cur ++ [x]) hlen

/-- Flattening the produced batches gives back the input names, in order:
no name is dropped or duplicated by batching. -/
theorem mkBatches_flatten {α : Type} (xs : List α) :
    (mkBatches 10 xs).flatten = xs := by
  simpa [mkBatches] using mkBatchesAux_flatten xs [] (by simp)

theorem mkBatchesAux_length {α : Type} :
    ∀ (xs cur : List α), cur.length < 10 →
      (mkBatchesAux 10 cur xs).length = (cur.length + xs.length + 9) / 10 := by
  intro xs
  induction xs with
  | nil =>
      intro cur hcur
      by_cases h : cur.isEmpty
      · have : cur = [] := List.isEmpty_iff.mp h
        subst this
        simp [mkBatchesAux]
      · have hne : cur ≠ [] := by
          intro hc; exact h (by simp [hc])
        have hpos : 0 < cur.length := List.length_pos.mpr hne
        simp only [mkBatchesAux, h, Bool.false_eq_true, if_false]
        simp only [List.length_singleton, List.length_nil]
        omega
  | cons x xs ih =>
      intro cur hcur
      have hcons : (cur ++ [x]).length = cur.length + 1 := by simp
      by_cases h : 10 ≤ (cur ++ [x]).length
      · simp only [mkBatchesAux, h, if_true, List.length_cons]
        rw [ih [] (by simp)]
        simp only [List.length_nil, List.length_cons]
        omega
      · have hlen : (cur ++ [x]).length < 10 := Nat.lt_of_not_le h
        simp only [mkBatchesAux, h, if_false]
        rw [ih (cur ++ [x]) hlen]
        simp only [hcons, List.length_cons]
        omega

/-- The number of dispatched batches is exactly `⌈N / 10⌉`. -/
theorem mkBatches_length {α : Type} (xs : List α) :
    (mkBatches 10 xs).length = (xs.length + 9) / 10 := by
  simpa [mkBatches] using mkBatchesAux_length xs [] (by simp)

theorem mkBatchesAux_mem_bounds {α : Type} :
    ∀ (xs cur : List α), cur.length < 10 →
      ∀ b ∈ mkBatchesAux 10 cur xs, b ≠ [] ∧ b.length ≤ 10 := by
  intro xs
  induction xs with
  | nil =>
      intro cur hcur b hb
      by_cases h : cur.isEmpty
      · simp [mkBatchesAux, h] at hb
      · simp only [mkBatchesAux, h, Bool.false_eq_true, if_false,
          List.mem_singleton] at hb
        subst hb
        refine ⟨fun hc => h (by simp [hc]), Nat.le_of_lt hcur⟩
  | cons x xs ih =>
      intro cur hcur b hb
      have hcons : (cur ++ [x]).length = cur.length + 1 := by simp
      by_cases h : 10 ≤ (cur ++ [x]).length
      · simp only [mkBatchesAux, h, if_true, List.mem_cons] at hb
        rcases hb with hb | hb
        · subst hb
          exact ⟨by simp, by omega⟩
        · exact ih [] (by simp) b hb
      · have hlen : (cur ++ [x]).length < 10 := Nat.lt_of_not_le h
        simp only [mkBatchesAux, h, if_false] at hb
        exact ih (cur ++ [x]) hlen b hb

theorem mkBatchesAux_dropLast_full {α : Type} :
    ∀ (xs cur : List α), cur.length < 10 →
      ∀ b ∈ (mkBatchesAux 10 cur xs).dropLast, b.length = 10 := by
  intro xs
  induction xs with
  | nil =>
      intro cur hcur b hb
      by_cases h : cur.isEmpty <;> simp [mkBatchesAux, h] at hb
  | cons x xs ih =>
      intro cur hcur b hb
      have hcons : (cur ++ [x]).length = cur.length + 1 := by simp
      by_cases h : 10 ≤ (cur ++ [x]).length
      · have hflush : (cur ++ [x]).length = 10 := by omega
        simp only [mkBatchesAux, h, if_true] at hb
        rcases hrest : mkBatchesAux 10 ([] : List α) xs with _ | ⟨r, rs⟩
        · rw [hrest] at hb
          simp at hb
        · rw [hrest, List.dropLast_cons₂, List.mem_cons] at hb
          rcases hb with hb | hb
          · exact hb ▸ hflush
          · exact ih [] (by simp) b (hrest ▸ hb)
      · have hlen : (cur ++ [x]).length < 10 := Nat.lt_of_not_le h
        simp only [mkBatchesAux, h, if_false] at hb
        exact ih (cur ++ [x]) hlen b hb

/-- C1: For every build over `N` new names with batch size `B = 10`, the
builder dispatches exactly `⌈N/B⌉` batches, every batch except possibly
the last has exactly `B` names, no batch is empty or oversized, and the
batches partition the new names in enumeration order.  (This is the part
of the claim the code satisfies; the claimed lexicographic sorting is
refuted by `c1_batches_not_sorted`.) -/
theorem c1_batch_shape (order : List String) :
    (mkBatches labelBatchSize order).length = (order.length + 9) / 10 ∧
    (mkBatches labelBatchSize order).flatten = order ∧
    (∀ b ∈ (mkBatches labelBatchSize order).dropLast, b.length = 10) ∧
    (∀ b ∈ mkBatches labelBatchSize order, b ≠ [] ∧ b.length ≤ 10) :=
  ⟨mkBatches_length order, mkBatches_flatten order,
    mkBatchesAux_dropLast_full order [] (by simp),
    mkBatchesAux_mem_bounds order [] (by simp)⟩

/-- C1 is refuted as stated: the builder does not sort new names before
batching.  Two live-name lists holding the same 11 new names in
different orders produce different batch families — batch membership
follows enumeration order, not sorted order, so two builds over the same
new-name set need not produce the same batches. -/
theorem c1_batches_not_sorted :
    (["b", "c", "d", "e", "f", "g", "h", "i", "j", "k", "a"] : List String).Perm
      ["a", "b", "c", "d", "e", "f", "g", "h", "i", "j", "k"] ∧
    labelBatchesFor [] ["b", "c", "d", "e", "f", "g", "h", "i", "j", "k", "a"] ≠
      labelBatchesFor [] ["a", "b", "c", "d", "e", "f", "g", "h", "i", "j", "k"] := by
  constructor
  · decide
  · decide

theorem mergeEntry_allNames_mono (mm : MetricMap) (p : String × List String)
    (x : String) (hx : x ∈ mm.allNames) : x ∈ (mergeEntry mm p).allNames := by
  unfold mergeEntry
  generalize toLowerStr p.1 :: p.2 = toks
  induction toks generalizing mm with
  | nil => exact hx
  | cons t ts ih =>
      exact ih _ (mem_setInsert_of_mem _ _ _ hx)

theorem mergeEntry_allNames_self (mm : MetricMap) (p : String × List String) :
    p.1 ∈ (mergeEntry mm p).allNames := by
  unfold mergeEntry
  rw [List.foldl_cons]
  generalize hmm : ({ map := _, allNames := _ } : MetricMap) = mm1
  have hx : p.1 ∈ mm1.allNames := by
    rw [← hmm]
    exact mem_setInsert_self _ _
  generalize p.2 = ts
  clear hmm
  induction ts generalizing mm1 with
  | nil => exact hx
  | cons t ts ih =>
      exact ih _ (mem_setInsert_of_mem _ _ _ hx)

theorem mergeSynonyms_allNames_mono (mm : MetricMap)
    (resp : List (String × List String)) (x : String)
    (hx : x ∈ mm.allNames) : x ∈ (mergeSynonyms mm resp).allNames := by
  unfold mergeSynonyms
  induction resp generalizing mm with
  | nil => exact hx
  | cons p ps ih => exact ih _ (mergeEntry_allNames_mono _ _ _ hx)

theorem mergeSynonyms_allNames_covers (mm : MetricMap)
    (resp : List (String × List String)) (x : String)
    (hx : x ∈ resp.map Prod.fst) : x ∈ (mergeSynonyms mm resp).allNames := by
  unfold mergeSynonyms
  induction resp generalizing mm with
  | nil => simp at hx
  | cons p ps ih =>
      rw [List.map_cons, List.mem_cons] at hx
      rw [List.foldl_cons]
      rcases hx with hx | hx
      · subst hx
        exact mergeSynonyms_allNames_mono (mergeEntry mm p) ps _
          (mergeEntry_allNames_self _ _)
      · exact ih (mergeEntry mm p) hx

theorem mergeEntry_allNames_nodup (mm : MetricMap) (p : String × List String)
    (h : mm.allNames.Nodup) : (mergeEntry mm p).allNames.Nodup := by
  unfold mergeEntry
  generalize toLowerStr p.1 :: p.2 = toks
  induction toks generalizing mm with
  | nil => exact h
  | cons t ts ih =>
      exact ih _ (setInsert_nodup _ _ h)

theorem mergeSynonyms_allNames_nodup (mm : MetricMap)
    (resp : List (String × List String)) (h : mm.allNames.Nodup) :
    (mergeSynonyms mm resp).allNames.Nodup := by
  unfold mergeSynonyms
  induction resp generalizing mm with
  | nil => exact h
  | cons p ps ih => exact ih _ (mergeEntry_allNames_nodup _ _ h)

theorem newNamesOf_isEmpty_of_all_known (known : List String)
    (names : List String) (h : ∀ m ∈ names, m ∈ known) :
    (newNamesOf known names).isEmpty = true := by
  rw [List.isEmpty_iff]
  unfold newNamesOf
  rw [List.filter_eq_nil_iff]
  intro a ha
  have hc : known.contains a = true := List.elem_iff.mpr (h a ha)
  simpa [hc] using h a ha

/-- C2: rebuilding is idempotent.  If the provider response of the first
run covers every new name, then a second `UpdateMetricMap` run over the
same live name list dispatches zero batches to the synonym provider and
returns the synonym index (token map and known-name set) structurally
unchanged; and the known-name set stays duplicate-free. -/
theorem c2_rebuild_idempotent (mm : MetricMap) (names : List String)
    (resp resp2 : List (String × List String))
    (hcover : ∀ m ∈ newNamesOf mm.allNames names, m ∈ resp.map Prod.fst)
    (hnodup : mm.allNames.Nodup) :
    runUpdateMetricMap (runUpdateMetricMap mm names resp).1 names resp2
      = ((runUpdateMetricMap mm names resp).1, 0) ∧
    (runUpdateMetricMap mm names resp).1.allNames.Nodup := by
  by_cases h : (newNamesOf mm.allNames names).isEmpty
  · have h1 : runUpdateMetricMap mm names resp = (mm, 0) := by
      unfold runUpdateMetricMap
      simp [h]
    rw [h1]
    refine ⟨?_, hnodup⟩
    unfold runUpdateMetricMap
    simp [h]
  · have h1 : runUpdateMetricMap mm names resp = (mergeSynonyms mm resp,
        (mkBatches metricBatchSize (newNamesOf mm.allNames names)).length) := by
      unfold runUpdateMetricMap
      simp [h]
    rw [h1]
    have hall : ∀ m ∈ names, m ∈ (mergeSynonyms mm resp).allNames := by
      intro m hm
      by_cases hk : m ∈ mm.allNames
      · exact mergeSynonyms_allNames_mono _ _ _ hk
      · have hnew : m ∈ newNamesOf mm.allNames names := by
          unfold newNamesOf
          rw [List.mem_filter]
          refine ⟨hm, ?_⟩
          have hc : mm.allNames.contains m = false := by
            rw [Bool.eq_false_iff]
            intro hcm
            exact hk (List.elem_iff.mp hcm)
          simpa [hc] using hk
        exact mergeSynonyms_allNames_covers _ _ _ (hcover m hnew)
    have hempty := newNamesOf_isEmpty_of_all_known
      (mergeSynonyms mm resp).allNames names hall
    refine ⟨?_, mergeSynonyms_allNames_nodup _ _ hnodup⟩
    unfold runUpdateMetricMap
    simp [hempty]

/-- Witness for C2 at a concrete index, live-name list and provider
response. -/
theorem c2_rebuild_idempotent_witness :
    (∀ m ∈ newNamesOf (MetricMap.mk [] []).allNames ["CpuTotal"],
        m ∈ ([("CpuTotal", ["processor"])] : List (String × List String)).map Prod.fst) ∧
    (MetricMap.mk [] []).allNames.Nodup ∧
    (runUpdateMetricMap
        (runUpdateMetricMap (MetricMap.mk [] []) ["CpuTotal"]
          [("CpuTotal", ["processor"])]).1 ["CpuTotal"] []
      = ((runUpdateMetricMap (MetricMap.mk [] []) ["CpuTotal"]
          [("CpuTotal", ["processor"])]).1, 0) ∧
    (runUpdateMetricMap (MetricMap.mk [] []) ["CpuTotal"]
        [("CpuTotal", ["processor"])]).1.allNames.Nodup) :=
  ⟨by decide, by decide,
    c2_rebuild_idempotent (MetricMap.mk [] []) ["CpuTotal"]
      [("CpuTotal", ["processor"])] [] (by decide) (by decide)⟩

/-- C3 (amended): the persistence stage runs only after every earlier
stage has succeeded — a pre-persistence failure leaves the persisted
store untouched — and when every stage and every document write succeed
the store holds all five updated documents.  (The claim's stronger
assertion, that a failure *inside* the persistence stage also leaves no
partial state, is refuted by `c3_partial_persist_counterexample`.) -/
theorem c3_persist_after_stages (stages : StageOutcomes) (docs : InfoDocs)
    (saveOk : SaveOutcomes) (st : PersistedDocs)
    (hfail : stages.loadOk = false ∨ stages.fetchMetricsOk = false ∨
      stages.fetchDescriptionsOk = false ∨ stages.updateMetricMapOk = false ∨
      stages.fetchLabelsOk = false ∨ stages.updateLabelMapOk = false ∨
      stages.updateCatalogOk = false) :
    buildInformationStructure stages docs saveOk st = (st, false) := by
  unfold buildInformationStructure
  rcases hfail with h | h | h | h | h | h | h <;> simp [h]

/-- Witness for C3 at a concrete failing stage. -/
theorem c3_persist_after_stages_witness :
    ((StageOutcomes.mk true true true false true true true).updateMetricMapOk = false) ∧
    buildInformationStructure (StageOutcomes.mk true true true false true true true)
        (InfoDocs.mk "m" "l" "ml" "lv" "h")
        (SaveOutcomes.mk true true true true true)
        (PersistedDocs.mk none none none none none)
      = (PersistedDocs.mk none none none none none, false) :=
  ⟨by decide,
    c3_persist_after_stages _ _ _ _ (Or.inr (Or.inr (Or.inr (Or.inl (by decide)))))⟩

/-- C3 is refuted as stated: when the third document write fails, the
build reports failure but the first two updated documents are already
persisted — the persisted state is partial, neither the old store nor
the fully-updated one. -/
theorem c3_partial_persist_counterexample :
    buildInformationStructure (StageOutcomes.mk true true true true true true true)
        (InfoDocs.mk "m" "l" "ml" "lv" "h")
        (SaveOutcomes.mk true true false true true)
        (PersistedDocs.mk none none none none none)
      = (PersistedDocs.mk (some "m") (some "l") none none none, false) ∧
    PersistedDocs.mk (some "m") (some "l") none none none ≠
      PersistedDocs.mk none none none none none ∧
    PersistedDocs.mk (some "m") (some "l") none none none ≠
      PersistedDocs.mk (some "m") (some "l") (some "ml") (some "lv") (some "h") := by
  refine ⟨?_, by decide, by decide⟩
  decide

theorem valuesAt_mergeResponse_not_mem (r : SynMap) :
    ∀ (acc : SynMap) (k : String), k ∉ r.map Prod.fst →
      valuesAt (mergeResponse acc r) k = valuesAt acc k := by
  induction r with
  | nil => intro acc k _; rfl
  | cons p rest ih =>
      intro acc k hk
      rw [List.map_cons, List.mem_cons] at hk
      push_neg at hk
      unfold mergeResponse at ih ⊢
      rw [List.foldl_cons]
      rw [ih _ k hk.2]
      unfold valuesAt
      rw [goLookup_mapSetVal_other _ _ _ _ (fun h => hk.1 h.symm)]

theorem valuesAt_mergeResponse (r : SynMap) :
    ∀ (acc : SynMap) (k : String), (r.map Prod.fst).Nodup →
      valuesAt (mergeResponse acc r) k = valuesAt acc k ++ valuesAt r k := by
  induction r with
  | nil => intro acc k _; simp [mergeResponse, valuesAt, goLookup]
  | cons p rest ih =>
      intro acc k hnd
      rw [List.map_cons, List.nodup_cons] at hnd
      unfold mergeResponse at ih ⊢
      rw [List.foldl_cons]
      by_cases hk : p.1 = k
      · subst hk
        have hnotmem : p.1 ∉ rest.map Prod.fst := hnd.1
        have := valuesAt_mergeResponse_not_mem rest
          (mapSetVal acc p.1 ((goLookup acc p.1).getD [] ++ p.2)) p.1 hnotmem
        unfold mergeResponse at this
        rw [this]
        unfold valuesAt
        rw [goLookup_mapSetVal_self]
        simp [goLookup]
      · rw [ih _ k hnd.2]
        unfold valuesAt
        rw [goLookup_mapSetVal_other _ _ _ _ hk]
        rcases p with ⟨k', v⟩
        simp only at hk
        simp only [goLookup, if_neg hk]

theorem valuesAt_foldl_merge (rs : List SynMap) :
    ∀ (acc : SynMap) (k : String), (∀ r ∈ rs, (r.map Prod.fst).Nodup) →
      valuesAt (rs.foldl mergeResponse acc) k
        = valuesAt acc k ++ (rs.map (fun r => valuesAt r k)).flatten := by
  induction rs with
  | nil => intro acc k _; simp
  | cons r rest ih =>
      intro acc k hnd
      rw [List.foldl_cons, ih _ k (fun s hs => hnd s (List.mem_cons_of_mem _ hs)),
        valuesAt_mergeResponse r acc k (hnd r (List.mem_cons_self _ _))]
      simp

/-- In the drain loop, an already-recorded first error is never
overwritten. -/
theorem consolidate_keeps_first_error
    (results : List (Except String SynMap)) :
    ∀ (e : String) (m : SynMap),
      (results.foldl
        (fun acc res =>
          match res with
          | .error e' => (if acc.1 = none then some e' else acc.1, acc.2)
          | .ok syns => (acc.1, mergeResponse acc.2 syns))
        (some e, m)).1 = some e := by
  induction results with
  | nil => intro e m; rfl
  | cons res rest ih =>
      intro e m
      rcases res with e' | syns
      · simpa using ih e m
      · simpa using ih e _

theorem consolidate_fst_eq_firstError (results : List (Except String SynMap)) :
    ∀ (m : SynMap),
      (results.foldl
        (fun acc res =>
          match res with
          | .error e' => (if acc.1 = none then some e' else acc.1, acc.2)
          | .ok syns => (acc.1, mergeResponse acc.2 syns))
        (none, m)).1 = firstErrorOf results := by
  induction results with
  | nil => intro m; rfl
  | cons res rest ih =>
      intro m
      rcases res with e' | syns
      · simpa [firstErrorOf] using consolidate_keeps_first_error rest e' m
      · simpa [firstErrorOf] using ih _

theorem consolidate_ok_snd (rs : List SynMap) :
    ∀ (m : SynMap),
      ((rs.map Except.ok).foldl
        (fun (acc : Option String × SynMap) res =>
          match res with
          | .error e' => (if acc.1 = none then some e' else acc.1, acc.2)
          | .ok syns => (acc.1, mergeResponse acc.2 syns))
        ((none : Option String), m)) = (none, rs.foldl mergeResponse m) := by
  induction rs with
  | nil => intro m; rfl
  | cons r rest ih =>
      intro m
      simpa using ih (mergeResponse m r)

/-- C4 (amended): the dispatcher launches one worker per batch and
drains every worker before reporting.  When every batch succeeds it
returns the full merge — each name's synonym list is the concatenation,
in drain order, of that name's synonyms across all batch responses —
with no error; when any batch fails it returns the first error in drain
order together with a `nil` result map, discarding the merged work of
the succeeding batches.  (The claim's assertion that completed work
stays visible alongside the error is refuted by
`c4_partial_results_discarded`.) -/
theorem c4_dispatcher_contract (rs : List SynMap)
    (results : List (Except String SynMap)) (e : String)
    (hnd : ∀ r ∈ rs, (r.map Prod.fst).Nodup)
    (herr : firstErrorOf results = some e) :
    dispatchSynonyms (rs.map Except.ok) = (some (rs.foldl mergeResponse []), none) ∧
    (∀ k, valuesAt (rs.foldl mergeResponse []) k
        = (rs.map (fun r => valuesAt r k)).flatten) ∧
    dispatchSynonyms results = (none, some e) := by
  refine ⟨?_, ?_, ?_⟩
  · unfold dispatchSynonyms consolidate
    rw [consolidate_ok_snd rs []]
  · intro k
    have := valuesAt_foldl_merge rs [] k hnd
    simpa [valuesAt, goLookup] using this
  · unfold dispatchSynonyms consolidate
    rw [consolidate_fst_eq_firstError results [], herr]

/-- Witness for C4 at concrete batch responses, one failing drain. -/
theorem c4_dispatcher_contract_witness :
    (∀ r ∈ ([[("cpu", ["processor"])], [("mem", ["memory"]), ("cpu", ["core"])]] :
        List SynMap), (r.map Prod.fst).Nodup) ∧
    firstErrorOf [Except.ok [("cpu", ["processor"])], Except.error "batch 2 failed"]
      = some "batch 2 failed" ∧
    (dispatchSynonyms (([[("cpu", ["processor"])], [("mem", ["memory"]), ("cpu", ["core"])]] :
        List SynMap).map Except.ok)
      = (some (([[("cpu", ["processor"])], [("mem", ["memory"]), ("cpu", ["core"])]] :
          List SynMap).foldl mergeResponse []), none) ∧
    (∀ k, valuesAt (([[("cpu", ["processor"])], [("mem", ["memory"]), ("cpu", ["core"])]] :
          List SynMap).foldl mergeResponse []) k
        = (([[("cpu", ["processor"])], [("mem", ["memory"]), ("cpu", ["core"])]] :
          List SynMap).map (fun r => valuesAt r k)).flatten) ∧
    dispatchSynonyms [Except.ok [("cpu", ["processor"])], Except.error "batch 2 failed"]
      = (none, some "batch 2 failed")) :=
  ⟨by decide, by decide,
    c4_dispatcher_contract _ _ _ (by decide) (by decide)⟩

/-- C4 is refuted as stated: with two batches, the first succeeding and
the second failing, the dispatcher returns `(nil, firstError)` — the
completed work of the succeeding batch (`"cpu" → ["processor"]`) is not
visible to the caller. -/
theorem c4_partial_results_discarded :
    dispatchSynonyms [Except.ok [("cpu", ["processor"])], Except.error "boom"]
      = (none, some "boom") := by
  decide

theorem valuesAt_mapAddName_mono (m : List (String × List String))
    (t n k x : String) (hx : x ∈ valuesAt m k) :
    x ∈ valuesAt (mapAddName m t n) k := by
  unfold mapAddName valuesAt
  by_cases ht : t = k
  · subst ht
    rw [goLookup_mapSetVal_self]
    exact mem_setInsert_of_mem _ _ _ hx
  · rw [goLookup_mapSetVal_other _ _ _ _ ht]
    exact hx

theorem mem_valuesAt_mapAddName_self (m : List (String × List String))
    (t n : String) : n ∈ valuesAt (mapAddName m t n) t := by
  unfold mapAddName valuesAt
  rw [goLookup_mapSetVal_self]
  exact mem_setInsert_self _ _

theorem mergeEntry_map_mono (mm : MetricMap) (p : String × List String)
    (k x : String) (hx : x ∈ valuesAt mm.map k) :
    x ∈ valuesAt (mergeEntry mm p).map k := by
  unfold mergeEntry
  generalize toLowerStr p.1 :: p.2 = toks
  induction toks generalizing mm with
  | nil => exact hx
  | cons t ts ih =>
      exact ih _ (valuesAt_mapAddName_mono _ _ _ _ _ hx)

theorem mergeEntry_map_mem (mm : MetricMap) (p : String × List String) :
    ∀ tok ∈ toLowerStr p.1 :: p.2, p.1 ∈ valuesAt (mergeEntry mm p).map tok := by
  unfold mergeEntry
  generalize toLowerStr p.1 :: p.2 = toks
  induction toks generalizing mm with
  | nil => intro tok h; simp at h
  | cons t ts ih =>
      intro tok htok
      rw [List.mem_cons] at htok
      rw [List.foldl_cons]
      rcases htok with rfl | htok
      · rcases ts with _ | ⟨u, us⟩
        · exact mem_valuesAt_mapAddName_self _ _ _
        · have hbase : p.1 ∈ valuesAt
              (mapAddName mm.map tok p.1 : List (String × List String)) tok :=
            mem_valuesAt_mapAddName_self _ _ _
          generalize hmm : ({ map := _, allNames := _ } : MetricMap) = mm1
          have hx : p.1 ∈ valuesAt mm1.map tok := by rw [← hmm]; exact hbase
          clear hmm
          generalize u :: us = vs
          induction vs generalizing mm1 with
          | nil => exact hx
          | cons w ws ihw =>
              exact ihw _ (valuesAt_mapAddName_mono _ _ _ _ _ hx)
      · exact ih _ tok htok

theorem mergeSynonyms_map_mono (mm : MetricMap)
    (resp : List (String × List String)) (k x : String)
    (hx : x ∈ valuesAt mm.map k) :
    x ∈ valuesAt (mergeSynonyms mm resp).map k := by
  unfold mergeSynonyms
  induction resp generalizing mm with
  | nil => exact hx
  | cons p ps ih => exact ih _ (mergeEntry_map_mono _ _ _ _ hx)

/-- C5 (amended): for every response entry, the canonical name is
inserted under its lowercased form, and under each provider synonym
verbatim — synonyms are not case-normalized, and neither are resolver
lookups (refuted case in `c5_tokens_not_lowercased`). -/
theorem c5_insertion_keys (mm : MetricMap)
    (resp : List (String × List String)) :
    ∀ p ∈ resp, ∀ tok ∈ toLowerStr p.1 :: p.2,
      p.1 ∈ valuesAt (mergeSynonyms mm resp).map tok := by
  intro p hp tok htok
  unfold mergeSynonyms
  induction resp generalizing mm with
  | nil => simp at hp
  | cons q qs ih =>
      rw [List.mem_cons] at hp
      rw [List.foldl_cons]
      rcases hp with rfl | hp
      · have := mergeEntry_map_mem mm p tok htok
        have hall : p.1 ∈ valuesAt (qs.foldl mergeEntry (mergeEntry mm p)).map tok := by
          have hmono := mergeSynonyms_map_mono (mergeEntry mm p) qs tok p.1 this
          unfold mergeSynonyms at hmono
          exact hmono
        exact hall
      · exact ih _ hp

/-- Witness for C5 at a concrete provider response. -/
theorem c5_insertion_keys_witness :
    (("NodeCPU", ["usage"]) ∈ ([("NodeCPU", ["usage"])] : List (String × List String))) ∧
    ("usage" ∈ toLowerStr "NodeCPU" :: ["usage"]) ∧
    "NodeCPU" ∈ valuesAt (mergeSynonyms (MetricMap.mk [] [])
      [("NodeCPU", ["usage"])]).map "usage" :=
  ⟨by decide, by decide,
    c5_insertion_keys (MetricMap.mk [] []) [("NodeCPU", ["usage"])]
      ("NodeCPU", ["usage"]) (by decide) "usage" (by decide)⟩

/-- C5 is refuted as stated: a provider synonym `"CPU"` is stored under
the non-lowercase key `"CPU"`, and a resolver lookup for the token
`"CPU"` misses an index entry keyed `"cpu"` — neither insertion of
synonyms nor lookup normalizes case. -/
theorem c5_tokens_not_lowercased :
    "CPU" ∈ (mergeSynonyms (MetricMap.mk [] []) [("NodeCPU", ["CPU"])]).map.map Prod.fst ∧
    toLowerStr "CPU" ≠ "CPU" ∧
    processMetricTokens [("cpu", ["node_cpu"])] [] []
      (PossibleMatches.mk (some [some "CPU"]) (some []) (some [])) = [] := by
  refine ⟨by decide, by decide, by decide⟩

/-- C6: incremental scoring without resampling.  A first mention of a
catalog-valid label stores `matchScore = 1` with the sampled catalog
values; a repeat mention adds exactly `0.5` and keeps the stored values;
a value token found in the catalog values of an already-recorded label
appends the token only when absent and adds exactly `0.2`; other labels'
contexts are untouched. -/
theorem c6_incremental_scoring (ctxs : LabelCtxMap) (lbl tok : String)
    (catalogValues : List String) (c : LabelContextDetail) :
    (goLookup ctxs lbl = none →
      goLookup (labelResolveStep catalogValues ctxs lbl) lbl
        = some ⟨1, getSampleValues catalogValues⟩) ∧
    (goLookup ctxs lbl = some c →
      goLookup (labelResolveStep catalogValues ctxs lbl) lbl
        = some ⟨c.matchScore + 0.5, c.values⟩) ∧
    (goLookup ctxs lbl = some c →
      goLookup (valueResolveStep ctxs lbl tok) lbl
        = some ⟨c.matchScore + 0.2,
            if tok ∈ c.values then c.values else c.values ++ [tok]⟩) ∧
    (∀ l', l' ≠ lbl →
      goLookup (labelResolveStep catalogValues ctxs lbl) l' = goLookup ctxs l' ∧
      goLookup (valueResolveStep ctxs lbl tok) l' = goLookup ctxs l') := by
  refine ⟨?_, ?_, ?_, ?_⟩
  · intro h
    unfold labelResolveStep
    rw [h]
    exact goLookup_mapSetVal_self _ _ _
  · intro h
    unfold labelResolveStep
    rw [h]
    exact goLookup_mapSetVal_self _ _ _
  · intro h
    unfold valueResolveStep
    rw [h]
    exact goLookup_mapSetVal_self _ _ _
  · intro l' hl
    constructor
    · unfold labelResolveStep
      rcases hc : goLookup ctxs lbl with _ | c0 <;>
        exact goLookup_mapSetVal_other _ _ _ _ (fun he => hl he.symm)
    · unfold valueResolveStep
      rcases hc : goLookup ctxs lbl with _ | c0 <;>
        exact goLookup_mapSetVal_other _ _ _ _ (fun he => hl he.symm)

/-- Witness for C6 at a concrete context: a repeat label mention and a
new value token. -/
theorem c6_incremental_scoring_witness :
    goLookup ([("mode", ⟨1, ["idle"]⟩)] : LabelCtxMap) "mode"
      = some ⟨1, ["idle"]⟩ ∧
    goLookup (labelResolveStep ["idle", "user"]
        ([("mode", ⟨1, ["idle"]⟩)] : LabelCtxMap) "mode") "mode"
      = some ⟨(1 : Rat) + 0.5, ["idle"]⟩ ∧
    goLookup (valueResolveStep ([("mode", ⟨1, ["idle"]⟩)] : LabelCtxMap)
        "mode" "user") "mode"
      = some ⟨(1 : Rat) + 0.2,
          if "user" ∈ ["idle"] then ["idle"] else ["idle"] ++ ["user"]⟩ :=
  ⟨by decide,
    (c6_incremental_scoring [("mode", ⟨1, ["idle"]⟩)] "mode" "user"
      ["idle", "user"] ⟨1, ["idle"]⟩).2.1 (by decide),
    (c6_incremental_scoring [("mode", ⟨1, ["idle"]⟩)] "mode" "user"
      ["idle", "user"] ⟨1, ["idle"]⟩).2.2.1 (by decide)⟩

/-- C8 (amended): sampling keeps the first `min 5 n` values of the value
set's iteration order — a set with at least 5 values yields exactly 5 —
and a first label mention stores exactly that sample; but the iteration
order of a Go map is not fixed, so sampling is not deterministic
(refutation in `c8_sampling_order_dependent`). -/
theorem c8_sample_shape (vals : List String) (ctxs : LabelCtxMap)
    (lbl : String) (hnew : goLookup ctxs lbl = none) :
    (getSampleValues vals).length = min 5 vals.length ∧
    getSampleValues vals ++ vals.drop 5 = vals ∧
    (∀ x ∈ getSampleValues vals, x ∈ vals) ∧
    goLookup (labelResolveStep vals ctxs lbl) lbl
      = some ⟨1, getSampleValues vals⟩ := by
  refine ⟨List.length_take 5 vals, List.take_append_drop 5 vals,
    fun x hx => List.mem_of_mem_take hx, ?_⟩
  unfold labelResolveStep
  rw [hnew]
  exact goLookup_mapSetVal_self _ _ _

/-- Witness for C8 at a 6-value catalog set. -/
theorem c8_sample_shape_witness :
    goLookup ([] : LabelCtxMap) "mode" = none ∧
    ((getSampleValues ["idle", "user", "system", "iowait", "nice", "steal"]).length
        = min 5 (["idle", "user", "system", "iowait", "nice", "steal"] : List String).length ∧
      getSampleValues ["idle", "user", "system", "iowait", "nice", "steal"] ++
        (["idle", "user", "system", "iowait", "nice", "steal"] : List String).drop 5
        = ["idle", "user", "system", "iowait", "nice", "steal"] ∧
      (∀ x ∈ getSampleValues ["idle", "user", "system", "iowait", "nice", "steal"],
        x ∈ (["idle", "user", "system", "iowait", "nice", "steal"] : List String)) ∧
      goLookup (labelResolveStep ["idle", "user", "system", "iowait", "nice", "steal"]
          ([] : LabelCtxMap) "mode") "mode"
        = some ⟨1, getSampleValues ["idle", "user", "system", "iowait", "nice", "steal"]⟩) :=
  ⟨by decide,
    c8_sample_shape ["idle", "user", "system", "iowait", "nice", "steal"] [] "mode" (by decide)⟩

/-- C8 is refuted as stated: the same 6-value set iterated in two
different orders yields different 5-value samples — `getSampleValues`
slices the unordered set's iteration order without sorting, so two
resolver calls over identical inputs need not produce identical
sample-value sequences. -/
theorem c8_sampling_order_dependent :
    (["idle", "user", "system", "iowait", "nice", "steal"] : List String).Perm
      ["steal", "nice", "iowait", "system", "user", "idle"] ∧
    getSampleValues ["idle", "user", "system", "iowait", "nice", "steal"] ≠
      getSampleValues ["steal", "nice", "iowait", "system", "user", "idle"] := by
  refine ⟨by decide, by decide⟩

theorem histEntryBad_some (pmn pln : List (Option String))
    (keyParts : List String) (v : HistVal) :
    histEntryBad pmn pln (some keyParts, v)
      = (decide (keyParts.length = 2) && containsAny pmn (keyParts.getD 0 "") &&
          containsAny pln (keyParts.getD 1 "") && v.isNone) := rfl

theorem historyLoop_cons_some (pmn pln : List (Option String))
    (acc : List (String × String)) (keyParts : List String) (v : HistVal)
    (rest : List (HistKey × HistVal)) :
    historyLoop pmn pln acc ((some keyParts, v) :: rest)
      = if keyParts.length = 2 ∧
            containsAny pmn (keyParts.getD 0 "") = true ∧
            containsAny pln (keyParts.getD 1 "") = true then
          match v with
          | none => Except.error "error unmarshaling nlpToMetricMap value"
          | some valueMap =>
              historyLoop pmn pln
                (valueMap.foldl (fun a p => mapSetVal a p.1 p.2) acc) rest
        else historyLoop pmn pln acc rest := rfl

theorem historyLoop_error_iff (pmn pln : List (Option String)) :
    ∀ (hist : List (HistKey × HistVal)) (acc : List (String × String)),
      (∃ e, historyLoop pmn pln acc hist = .error e) ↔
        historyFailureWitness pmn pln hist = true := by
  intro hist
  induction hist with
  | nil =>
      intro acc
      constructor
      · rintro ⟨e, he⟩
        exact absurd he (by simp [historyLoop])
      · intro h
        exact absurd h (by simp [historyFailureWitness])
  | cons p rest ih =>
      intro acc
      obtain ⟨k, v⟩ := p
      rcases k with _ | keyParts
      · constructor
        · intro _
          simp [historyFailureWitness, List.any_cons, histEntryBad]
        · intro _
          exact ⟨_, rfl⟩
      · by_cases hcond : keyParts.length = 2 ∧
            containsAny pmn (keyParts.getD 0 "") = true ∧
            containsAny pln (keyParts.getD 1 "") = true
        · obtain ⟨h1, h2, h3⟩ := hcond
          rcases v with _ | valueMap
          · have hbad : histEntryBad pmn pln (some keyParts, none) = true := by
              rw [histEntryBad_some, h2, h3]
              simp [h1]
            constructor
            · intro _
              unfold historyFailureWitness
              rw [List.any_cons, hbad, Bool.true_or]
            · intro _
              refine ⟨"error unmarshaling nlpToMetricMap value", ?_⟩
              rw [historyLoop_cons_some, if_pos ⟨h1, h2, h3⟩]
          · have hbad : histEntryBad pmn pln (some keyParts, some valueMap) = false := by
              rw [histEntryBad_some]
              simp
            rw [historyLoop_cons_some, if_pos ⟨h1, h2, h3⟩]
            rw [ih _]
            unfold historyFailureWitness
            rw [List.any_cons, hbad, Bool.false_or]
        · have hbad : histEntryBad pmn pln (some keyParts, v) = false := by
            rw [histEntryBad_some]
            by_cases h1 : keyParts.length = 2
            · by_cases h2 : containsAny pmn (keyParts.getD 0 "") = true
              · by_cases h3 : containsAny pln (keyParts.getD 1 "") = true
                · exact absurd ⟨h1, h2, h3⟩ hcond
                · rw [Bool.not_eq_true] at h3
                  rw [h2, h3]
                  simp
              · rw [Bool.not_eq_true] at h2
                rw [h2]
                simp
            · simp [h1]
          rw [historyLoop_cons_some, if_neg hcond, ih _]
          unfold historyFailureWitness
          rw [List.any_cons, hbad, Bool.false_or]

/-- C7 (amended): the resolution phase fails exactly when the history
table holds an undecodable key, or an undecodable value under a key that
matches the (list-shaped) metric and label candidate fields; a malformed
value under a non-matching key is never decoded and is not an error.  A
wrong-shaped metric candidate field yields empty `RelevantMetrics` and
no error; empty candidate lists yield empty results and no error when
the history keys decode. -/
theorem c7_resolution_errors (metricMapM labelMapM : List (String × List String))
    (mlm : MetricLabelMap) (lvm : LabelValueMap)
    (hist : List (HistKey × HistVal)) :
    (∀ pm pmn pln, pm.metricNames = some pmn → pm.labelNames = some pln →
      ((∃ e, processUserQuery metricMapM labelMapM mlm lvm hist pm = .error e) ↔
        historyFailureWitness pmn pln hist = true)) ∧
    (∀ pm, pm.metricNames = none →
      ∃ rl, processUserQuery metricMapM labelMapM mlm lvm hist pm = .ok ([], rl, [])) ∧
    ((∀ p ∈ hist, p.1 ≠ none) →
      processUserQuery metricMapM labelMapM mlm lvm hist
        (PossibleMatches.mk (some []) (some []) (some [])) = .ok ([], [], [])) := by
  refine ⟨?_, ?_, ?_⟩
  · intro pm pmn pln hm hl
    unfold processUserQuery
    rw [hm, hl]
    rcases hloop : historyLoop pmn pln [] hist with e | h
    · simp only [hloop]
      constructor
      · intro _
        exact (historyLoop_error_iff pmn pln hist []).mp ⟨e, hloop⟩
      · intro _
        exact ⟨e, rfl⟩
    · simp only [hloop]
      constructor
      · rintro ⟨e, he⟩
        exact Except.noConfusion he
      · intro hw
        obtain ⟨e2, he2⟩ := (historyLoop_error_iff pmn pln hist []).mpr hw
        exact Except.noConfusion (he2.symm.trans hloop)
  · intro pm hm
    refine ⟨?_, ?_⟩
    · exact (match pm.labelNames with
        | none => []
        | some lts => processLabelTokens labelMapM lvm lts []) |>
        fun rl0 => match pm.labelValues with
        | none => rl0
        | some lvs => processValueTokens lvm lvs rl0
    · unfold processUserQuery processMetricTokens
      rw [hm]
  · intro hkeys
    have hloop : ∀ (h : List (HistKey × HistVal)), (∀ p ∈ h, p.1 ≠ none) →
        historyLoop [] [] [] h = .ok [] := by
      intro h
      induction h with
      | nil => intro _; rfl
      | cons p rest ih =>
          intro hk
          obtain ⟨k, v⟩ := p
          rcases k with _ | keyParts
          · exact absurd rfl (hk (none, v) (List.mem_cons_self _ _))
          · have : ¬(keyParts.length = 2 ∧
                containsAny [] (keyParts.getD 0 "") = true ∧
                containsAny [] (keyParts.getD 1 "") = true) := by
              rintro ⟨_, hc, _⟩
              simp [containsAny] at hc
            simp only [historyLoop, this, if_false]
            exact ih (fun q hq => hk q (List.mem_cons_of_mem _ hq))
    unfold processUserQuery
    simp only [hloop hist hkeys]
    rfl

/-- Witness for C7: a non-list metric field is tolerated, empty
candidate lists resolve to empty maps, and with decodable keys the
failure characterization holds on a malformed-key-free table. -/
theorem c7_resolution_errors_witness :
    ((PossibleMatches.mk none (some []) none).metricNames = none ∧
      ∃ rl, processUserQuery [] [] [] [] [(some ["a", "b"], (none : HistVal))]
        (PossibleMatches.mk none (some []) none) = .ok ([], rl, [])) ∧
    ((∀ p ∈ ([(some ["a", "b"], (none : HistVal))] : List (HistKey × HistVal)),
        p.1 ≠ none) ∧
      processUserQuery [] [] [] [] [(some ["a", "b"], (none : HistVal))]
        (PossibleMatches.mk (some []) (some []) (some [])) = .ok ([], [], [])) :=
  ⟨⟨rfl, (c7_resolution_errors [] [] [] [] [(some ["a", "b"], none)]).2.1
      (PossibleMatches.mk none (some []) none) rfl⟩,
    ⟨by decide, (c7_resolution_errors [] [] [] [] [(some ["a", "b"], none)]).2.2
      (by decide)⟩⟩

/-- C7 is refuted as stated: a history table containing a malformed
(non-JSON) value — under a key that does not match the candidates — does
not make `ProcessUserQuery` return an error, contradicting "errors
exactly when the table contains a malformed key or value". -/
theorem c7_malformed_value_not_fatal :
    ((some ["a", "b"], (none : HistVal)) :: []).any (fun p => p.2.isNone) = true ∧
    processUserQuery [] [] [] [] [(some ["a", "b"], (none : HistVal))]
      (PossibleMatches.mk (some []) (some []) (some [])) = .ok ([], [], []) := by
  refine ⟨by decide, rfl⟩

/-- C9 (amended): build-status reads take the shared side of the
RW lock, so multiple observers can hold it and read concurrently while a
build is running its stages; and a status write is only enabled when no
observer holds the read lock.  The lock serializes only the status
accesses themselves: it does not prevent a second build from being in
flight (refuted claim in `c9_two_builds_in_flight`). -/
theorem c9_status_lock_concurrency :
    lockReachable ⟨.body, .start, .reading, .reading, 2⟩ ∧
    (∀ s s' : LockModelState, LockStep s s' →
      s.b1 = .start → s'.b1 = .body → s.readers = 0) := by
  constructor
  · have s1 : LockStep lockInit ⟨.body, .start, .idle, .idle, 0⟩ :=
      LockStep.b1Start lockInit rfl rfl
    have s2 : LockStep ⟨.body, .start, .idle, .idle, 0⟩
        ⟨.body, .start, .reading, .idle, 1⟩ :=
      LockStep.r1Acquire ⟨.body, .start, .idle, .idle, 0⟩ rfl
    have s3 : LockStep ⟨.body, .start, .reading, .idle, 1⟩
        ⟨.body, .start, .reading, .reading, 2⟩ :=
      LockStep.r2Acquire ⟨.body, .start, .reading, .idle, 1⟩ rfl
    exact Relation.ReflTransGen.tail
      (Relation.ReflTransGen.tail (Relation.ReflTransGen.single s1) s2) s3
  · intro s s' hstep hstart hbody
    cases hstep with
    | b1Start h hr => exact hr
    | b2Start h hr => exact absurd (hstart.symm.trans hbody) (by decide)
    | b1End h hr => exact absurd (h.symm.trans hstart) (by decide)
    | b2End h hr => exact absurd (hstart.symm.trans hbody) (by decide)
    | r1Acquire h => exact absurd (hstart.symm.trans hbody) (by decide)
    | r1Release h => exact absurd (hstart.symm.trans hbody) (by decide)
    | r2Acquire h => exact absurd (hstart.symm.trans hbody) (by decide)
    | r2Release h => exact absurd (hstart.symm.trans hbody) (by decide)

/-- Witness for C9 at a concrete step: a build's initial status write
from the initial state requires zero read-lock holders. -/
theorem c9_status_lock_concurrency_witness :
    LockStep lockInit ⟨.body, .start, .idle, .idle, 0⟩ ∧
    lockInit.b1 = .start ∧
    (⟨.body, .start, .idle, .idle, 0⟩ : LockModelState).b1 = .body ∧
    lockInit.readers = 0 :=
  ⟨LockStep.b1Start lockInit rfl rfl, rfl, rfl,
    c9_status_lock_concurrency.2 lockInit ⟨.body, .start, .idle, .idle, 0⟩
      (LockStep.b1Start lockInit rfl rfl) rfl rfl⟩

/-- C9 is refuted as stated: the status lock is released right after
each status write, and `BuildInformationStructure` never checks
`IsRunning`, so a state with both builds simultaneously running their
stages is reachable — mutual exclusion of builds is not enforced. -/
theorem c9_two_builds_in_flight :
    lockReachable ⟨.body, .body, .idle, .idle, 0⟩ := by
  have s1 : LockStep lockInit ⟨.body, .start, .idle, .idle, 0⟩ :=
    LockStep.b1Start lockInit rfl rfl
  have s2 : LockStep ⟨.body, .start, .idle, .idle, 0⟩
      ⟨.body, .body, .idle, .idle, 0⟩ :=
    LockStep.b2Start ⟨.body, .start, .idle, .idle, 0⟩ rfl rfl
  exact Relation.ReflTransGen.tail (Relation.ReflTransGen.single s1) s2

theorem loadMapFromFile_not_malformed {α : Type}
    (fileContents : Option (Option α)) (current : α)
    (h : fileContents ≠ some none) :
    loadMapFromFile fileContents current
      = .ok ((fileContents.getD (some current)).getD current) := by
  rcases fileContents with _ | fv
  · rfl
  · rcases fv with _ | d
    · exact absurd rfl h
    · rfl

/-- C10: loading with any subset of the five document files missing (and
the present ones decodable) succeeds, yielding for each missing file the
structure converted from its zero value; in particular the very first
build, with nothing persisted, loads cleanly into empty structures. -/
theorem c10_missing_files_load (fs : InfoFiles)
    (h1 : fs.metricMapFile ≠ some none)
    (h2 : fs.labelMapFile ≠ some none)
    (h3 : fs.metricLabelMapFile ≠ some none)
    (h4 : fs.labelValueMapFile ≠ some none)
    (h5 : fs.nlpToMetricMapFile ≠ some none) :
    loadInfoStructure fs = .ok
      (convertJSONToMetricMap
        ((fs.metricMapFile.getD (some (MetricJsonMap.mk [] []))).getD
          (MetricJsonMap.mk [] [])),
       convertJSONToLabelMap
        ((fs.labelMapFile.getD (some (MetricJsonMap.mk [] []))).getD
          (MetricJsonMap.mk [] [])),
       convertJSONToMetricLabelMap
        ((fs.metricLabelMapFile.getD (some [])).getD []),
       convertJSONToLabelValueMap
        ((fs.labelValueMapFile.getD (some [])).getD []),
       (fs.nlpToMetricMapFile.getD (some [])).getD []) ∧
    loadInfoStructure (InfoFiles.mk none none none none none)
      = .ok (MetricMap.mk [] [], MetricMap.mk [] [], [], [], []) := by
  constructor
  · unfold loadInfoStructure
    rw [loadMapFromFile_not_malformed _ _ h1,
      loadMapFromFile_not_malformed _ _ h2,
      loadMapFromFile_not_malformed _ _ h3,
      loadMapFromFile_not_malformed _ _ h4,
      loadMapFromFile_not_malformed _ _ h5]
  · rfl

/-- Witness for C10: the metric-map document present and decodable, the
other four files missing. -/
theorem c10_missing_files_load_witness :
    ((InfoFiles.mk (some (some (MetricJsonMap.mk [("cpu", ["m"])] ["m"])))
        none none none none).metricMapFile ≠ some none) ∧
    loadInfoStructure (InfoFiles.mk
        (some (some (MetricJsonMap.mk [("cpu", ["m"])] ["m"])))
        none none none none)
      = .ok (convertJSONToMetricMap (MetricJsonMap.mk [("cpu", ["m"])] ["m"]),
          MetricMap.mk [] [], [], [], []) :=
  ⟨by decide,
    ((c10_missing_files_load
      (InfoFiles.mk (some (some (MetricJsonMap.mk [("cpu", ["m"])] ["m"])))
        none none none none)
      (by decide) (by decide) (by decide) (by decide) (by decide)).1)⟩

end Nlpromql
